import Mathlib

/-!
Verification of the `fallback` crate (src/fallback/src/lib.rs).

The crate provides `Fallback<T>`, an immutable pair of `Option<T>` slots
(`data`, the primary, and `base_data`, the secondary), together with
combinators that resolve the pair by preferring the primary slot.  This file
is a shallow embedding: each Rust function is translated to a Lean function
over `Option`/`List`, keeping the source's names and control flow, and the
specification's claims are proved about these definitions.

Modelling choices:
* Rust `Option<T>` is Lean `Option T`; `Option::and_then` is `Option.bind`,
  `Option::or` is `Option.or`, `Option::map` is `Option.map`.
* The `FnMut` closure taken by `Fallback::and_then` may carry mutable state;
  `Fallback.andThenSt` is the state-threading translation of the same control
  flow, from which call-order and call-count facts are proved.
* Rust iterators are modelled as a state together with a step function
  `ι → Option β × ι` (the `next` method, returning the yielded element and
  the mutated iterator).  `std::iter::Fuse` is `fuseNext` over an `Option`
  state, exactly as in its Rust implementation.  Concrete containers are
  Lean lists with step function `listStep`.
-/

universe u v w

/-- The `Fallback` struct: a primary slot `data` and a secondary slot
`base_data`, both optional. -/
structure Fallback (T : Type u) where
  data : Option T
  base_data : Option T
deriving DecidableEq

namespace Fallback

variable {T : Type u} {V : Type v} {S : Type w}

/-- `Fallback::new`. -/
def new (data base_data : Option T) : Fallback T :=
  ⟨data, base_data⟩

/-- `Fallback::is_some`: `false` iff both slots are `None`. -/
def is_some (fb : Fallback T) : Bool :=
  fb.data.isSome || fb.base_data.isSome

/-- `Fallback::and_then` with a pure closure:
`self.data.and_then(&mut f).or_else(|| self.base_data.and_then(&mut f))`. -/
def and_then (fb : Fallback T) (f : T → Option V) : Option V :=
  (fb.data.bind f).or (fb.base_data.bind f)

/-- `Fallback::and_then` with the `FnMut` closure modelled as a
state-threading function: `f` receives its captured mutable state and the
argument and returns the result together with the updated state.  The
control flow is that of the source: try `f` on `data`, and only if that
produces `none` evaluate the `or_else` closure, which tries `f` on
`base_data`. -/
def andThenSt (fb : Fallback T) (f : S → T → Option V × S) (s : S) :
    Option V × S :=
  match fb.data with
  | some x =>
    match f s x with
    | (some v, s') => (some v, s')
    | (none, s') =>
      match fb.base_data with
      | some y => f s' y
      | none => (none, s')
  | none =>
    match fb.base_data with
    | some y => f s y
    | none => (none, s)

/-- `Fallback::and_then` instrumented to record the list of arguments the
closure is applied to, in call order (the state is the call log). -/
def andThenCalls (fb : Fallback T) (f : T → Option V) : Option V × List T :=
  fb.andThenSt (fun s x => (f x, s ++ [x])) []

/-- `Fallback::fallback`: `self.data.or(self.base_data)`. -/
def fallback (fb : Fallback T) : Option T :=
  fb.data.or fb.base_data

/-- `Fallback::map`. -/
def map (fb : Fallback T) (f : T → V) : Fallback V :=
  new (fb.data.map f) (fb.base_data.map f)

/-- `Fallback::unzip`. -/
def unzip (fb : Fallback T) : Option T × Option T :=
  (fb.data, fb.base_data)

/-- `impl From<Fallback<T>> for Option<T>`:
`if f.data.is_some() { f.data } else { f.base_data }`. -/
def toOption (fb : Fallback T) : Option T :=
  if fb.data.isSome then fb.data else fb.base_data

/-- `Fallback::and_any`, with the length-queryable container instantiated at
Lean lists (`s.into_iter().len()` is `s.length`): treats an empty container
as `None` and falls back. -/
def and_any {α : Type u} (fb : Fallback (List α)) : Option (List α) :=
  fb.and_then (fun s => if s.length = 0 then none else some s)

end Fallback

/-- The hidden `FallbackIter` struct: two optional inner iterators (`None`
when the corresponding slot of the pair was absent). -/
structure FallbackIter (ι : Type u) where
  data : Option ι
  base_data : Option ι
deriving DecidableEq

/-- One `next` call on an optional iterator slot:
`self.data.as_mut().and_then(|data| data.next())`.  An absent slot yields
nothing and stays absent; a present slot yields what the inner iterator's
`next` yields and keeps the mutated iterator in place.  An iterator is a
state `ι` together with a step function returning the yielded element and
the updated state. -/
def optStep {ι : Type u} {β : Type v} (inext : ι → Option β × ι) :
    Option ι → Option β × Option ι
  | none => (none, none)
  | some i =>
    match inext i with
    | (o, i') => (o, some i')

/-- `FallbackIter::next`: step both slots, and yield a pair as long as at
least one side produced an element. -/
def FallbackIter.next {ι : Type u} {β : Type v} (inext : ι → Option β × ι)
    (it : FallbackIter ι) : Option (Fallback β) × FallbackIter ι :=
  let d := optStep inext it.data
  let based := optStep inext it.base_data
  if d.1.isSome || based.1.isSome then
    (some (Fallback.new d.1 based.1), ⟨d.2, based.2⟩)
  else
    (none, ⟨d.2, based.2⟩)

/-- The outcome of the `k`-th further `next` call after the given state
(`k = 0` is the very next call). -/
def FallbackIter.nextN {ι : Type u} {β : Type v} (inext : ι → Option β × ι) :
    Nat → FallbackIter ι → Option (Fallback β) × FallbackIter ι
  | 0, it => FallbackIter.next inext it
  | k + 1, it => FallbackIter.nextN inext k (FallbackIter.next inext it).2

/-- Collect the elements produced by repeated `next` calls, stopping at the
first `none` result, with a fuel bound on the number of calls. -/
def FallbackIter.toList {ι : Type u} {β : Type v} (inext : ι → Option β × ι) :
    Nat → FallbackIter ι → List (Fallback β)
  | 0, _ => []
  | fuel + 1, it =>
    match FallbackIter.next inext it with
    | (none, _) => []
    | (some fb, it') => fb :: FallbackIter.toList inext fuel it'

/-- `std::iter::Fuse` over an arbitrary (possibly non-fused, restartable)
inner iterator: the fuse state is `Option σ`; once the inner iterator
returns `None`, the state becomes `none` and every later call returns
`None` without consulting the inner iterator again. -/
def fuseNext {σ : Type u} {β : Type v} (step : σ → Option (β × σ)) :
    Option σ → Option β × Option σ
  | none => (none, none)
  | some s =>
    match step s with
    | none => (none, none)
    | some (b, s') => (some b, some s')

/-- The iterator of a Lean list: the concrete container instantiation used
for `IntoIterator` (a Rust `Vec`'s iterator). -/
def listStep {β : Type v} : List β → Option (β × List β)
  | [] => none
  | x :: xs => some (x, xs)

/-- `impl IntoIterator for Fallback<T>` at the list instantiation:
`data.map(|data| data.into_iter().fuse())` — each present slot becomes a
fresh fused list iterator. -/
def Fallback.intoIter {β : Type v} (fb : Fallback (List β)) :
    FallbackIter (Option (List β)) :=
  ⟨fb.data.map (fun l => some l), fb.base_data.map (fun l => some l)⟩

/-- The elements still to be yielded by an optional fused list iterator
slot (empty when the slot is absent or the fuse has tripped). -/
def liveList {β : Type v} : Option (Option (List β)) → List β
  | some (some l) => l
  | _ => []

/-- Position-by-position pairing of two lists, continuing to the longer
list with `none` on the exhausted side: the sequence the iteration adapter
is expected to produce. -/
def zipLonger {β : Type v} : List β → List β → List (Fallback β)
  | [], ys => ys.map (fun y => Fallback.new none (some y))
  | x :: xs, [] => Fallback.new (some x) none :: zipLonger xs []
  | x :: xs, y :: ys => Fallback.new (some x) (some y) :: zipLonger xs ys

/-- The record type of the `FallbackSpec` doc example. -/
structure Foo where
  data1 : Int
  data2 : String

/-- The companion type generated by `#[derive(FallbackSpec)]` for `Foo`. -/
structure FallbackFoo where
  data1 : Fallback Int
  data2 : Fallback String

/-- `impl From<Fallback<Foo>> for FallbackFoo`, exactly as spelled out in
the `FallbackSpec` doc example: unzip the pair, extract each record's field
values (an absent record contributes `none` to every field), and rebuild a
`Fallback` per field. -/
def FallbackFoo.ofFallback (fb : Fallback Foo) : FallbackFoo :=
  match fb.unzip with
  | (data, base_data) =>
    let p := match data with
      | some d => (some d.data1, some d.data2)
      | none => (none, none)
    let b := match base_data with
      | some d => (some d.data1, some d.data2)
      | none => (none, none)
    ⟨Fallback.new p.1 b.1, Fallback.new p.2 b.2⟩

/-- The `FallbackSpec` trait: a companion type together with the conversion
from `Fallback<Self>`. -/
class FallbackSpec (T : Type u) where
  SpecType : Type u
  ofFallback : Fallback T → SpecType

instance : FallbackSpec Foo :=
  ⟨FallbackFoo, FallbackFoo.ofFallback⟩

/-- `Fallback::spec`: `T::SpecType::from(self)`. -/
def Fallback.spec {T : Type u} [FallbackSpec T] (fb : Fallback T) :
    FallbackSpec.SpecType T :=
  FallbackSpec.ofFallback fb

/-- C1: `fallback()` returns the primary slot whenever it is present
(regardless of the secondary slot), the secondary slot when the primary is
absent and the secondary present, and `none` when both are absent. -/
theorem fallback_resolution {T : Type u} (fb : Fallback T) :
    (∀ x, fb.data = some x → fb.fallback = some x)
    ∧ (∀ y, fb.data = none → fb.base_data = some y → fb.fallback = some y)
    ∧ (fb.data = none → fb.base_data = none → fb.fallback = none) := by
  obtain ⟨d, b⟩ := fb
  refine ⟨?_, ?_, ?_⟩
  · rintro x rfl; rfl
  · rintro y rfl rfl; rfl
  · rintro rfl rfl; rfl

/-- Witness for C1 at concrete inputs. -/
theorem fallback_resolution_witness :
    (Fallback.new (some 1) (some 2)).fallback = some 1 :=
  (fallback_resolution (Fallback.new (some 1) (some 2))).1 1 rfl

/-- C2: `and_then f` returns `f x` when the primary slot holds `x` and
`f x` is present; otherwise `f y` when the secondary slot holds `y`;
otherwise `none`.  The instrumented call log shows `f` is applied at most
twice, in primary-then-secondary order, and is never applied to the
secondary slot once `f` on the primary produced a present result. -/
theorem and_then_spec {T : Type u} {V : Type v} (fb : Fallback T)
    (f : T → Option V) :
    (∀ x v, fb.data = some x → f x = some v →
      fb.and_then f = some v ∧ (fb.andThenCalls f).2 = [x])
    ∧ (∀ x y, fb.data = some x → f x = none → fb.base_data = some y →
      fb.and_then f = f y ∧ (fb.andThenCalls f).2 = [x, y])
    ∧ (∀ x, fb.data = some x → f x = none → fb.base_data = none →
      fb.and_then f = none ∧ (fb.andThenCalls f).2 = [x])
    ∧ (∀ y, fb.data = none → fb.base_data = some y →
      fb.and_then f = f y ∧ (fb.andThenCalls f).2 = [y])
    ∧ (fb.data = none → fb.base_data = none →
      fb.and_then f = none ∧ (fb.andThenCalls f).2 = [])
    ∧ (fb.andThenCalls f).1 = fb.and_then f
    ∧ (fb.andThenCalls f).2.length ≤ 2 := by
  obtain ⟨d, b⟩ := fb
  refine ⟨?_, ?_, ?_, ?_, ?_, ?_, ?_⟩
  · rintro x v rfl hfx
    constructor
    · simp [Fallback.and_then, hfx, Option.or]
    · simp [Fallback.andThenCalls, Fallback.andThenSt, hfx]
  · rintro x y rfl hfx rfl
    constructor
    · simp [Fallback.and_then, hfx, Option.or]
    · simp [Fallback.andThenCalls, Fallback.andThenSt, hfx]
  · rintro x rfl hfx rfl
    constructor
    · simp [Fallback.and_then, hfx, Option.or]
    · simp [Fallback.andThenCalls, Fallback.andThenSt, hfx]
  · rintro y rfl rfl
    exact ⟨rfl, rfl⟩
  · rintro rfl rfl
    exact ⟨rfl, rfl⟩
  · rcases d with _ | x
    · cases b <;> rfl
    · rcases hfx : f x with _ | v
      · rcases b with _ | y
        · simp [Fallback.and_then, Fallback.andThenCalls, Fallback.andThenSt,
            hfx, Option.or]
        · simp [Fallback.and_then, Fallback.andThenCalls, Fallback.andThenSt,
            hfx, Option.or]
      · simp [Fallback.and_then, Fallback.andThenCalls, Fallback.andThenSt,
          hfx, Option.or]
  · rcases d with _ | x
    · cases b <;> simp [Fallback.andThenCalls, Fallback.andThenSt]
    · rcases hfx : f x with _ | v
      · cases b <;>
          simp [Fallback.andThenCalls, Fallback.andThenSt, hfx]
      · simp [Fallback.andThenCalls, Fallback.andThenSt, hfx]

/-- Witness for C2 at concrete inputs: the primary parses, the call log is
exactly the primary value. -/
theorem and_then_spec_witness :
    (Fallback.new (some 3) (some 4)).and_then (fun n => some (n + 1)) = some 4
    ∧ ((Fallback.new (some 3) (some 4)).andThenCalls
        (fun n => some (n + 1))).2 = [3] :=
  (and_then_spec (Fallback.new (some 3) (some 4)) (fun n => some (n + 1))).1
    3 4 rfl rfl

/-- C3: the `From<Fallback<T>> for Option<T>` conversion agrees with
`fallback()` on every pair. -/
theorem toOption_eq_fallback {T : Type u} (fb : Fallback T) :
    fb.toOption = fb.fallback := by
  obtain ⟨d, b⟩ := fb
  cases d <;> rfl

/-- C7: `map f` applies `f` slot-wise and preserves the occupancy pattern,
hence also `is_some`. -/
theorem map_occupancy {T : Type u} {V : Type v} (fb : Fallback T) (f : T → V) :
    (fb.map f).data = fb.data.map f
    ∧ (fb.map f).base_data = fb.base_data.map f
    ∧ (fb.map f).data.isSome = fb.data.isSome
    ∧ (fb.map f).base_data.isSome = fb.base_data.isSome
    ∧ (fb.map f).is_some = fb.is_some := by
  obtain ⟨d, b⟩ := fb
  cases d <;> cases b <;> exact ⟨rfl, rfl, rfl, rfl, rfl⟩

/-- C8: `unzip` followed by `new` rebuilds the original pair. -/
theorem new_unzip_id {T : Type u} (fb : Fallback T) :
    Fallback.new fb.unzip.1 fb.unzip.2 = fb :=
  rfl

/-- A fused list-iterator slot yields exactly the head of its live list. -/
theorem optStep_fused_fst {β : Type v} (d : Option (Option (List β))) :
    (optStep (fuseNext listStep) d).1 = (liveList d).head? := by
  rcases d with _ | (_ | (_ | ⟨x, l⟩)) <;> rfl

/-- Stepping a fused list-iterator slot leaves the tail of its live list. -/
theorem optStep_fused_live {β : Type v} (d : Option (Option (List β))) :
    liveList (optStep (fuseNext listStep) d).2 = (liveList d).tail := by
  rcases d with _ | (_ | (_ | ⟨x, l⟩)) <;> rfl

/-- Collecting the iteration adapter's output over fused list iterators
produces exactly the position-by-position pairing of the live lists,
whenever the fuel covers the longer list. -/
theorem toList_zipLonger {β : Type v} (fuel : Nat) :
    ∀ (d b : Option (Option (List β))),
      max (liveList d).length (liveList b).length ≤ fuel →
      FallbackIter.toList (fuseNext listStep) fuel ⟨d, b⟩ =
        zipLonger (liveList d) (liveList b) := by
  induction fuel with
  | zero =>
    intro d b h
    have hd : liveList d = [] :=
      List.length_eq_zero.mp (Nat.le_zero.mp
        (le_trans (Nat.le_max_left _ _) h))
    have hb : liveList b = [] :=
      List.length_eq_zero.mp (Nat.le_zero.mp
        (le_trans (Nat.le_max_right _ _) h))
    rw [hd, hb]
    rfl
  | succ n ih =>
    intro d b h
    rcases d with _ | (_ | (_ | ⟨x, xs⟩)) <;>
      rcases b with _ | (_ | (_ | ⟨y, ys⟩)) <;>
      simp only [liveList, List.length_nil, List.length_cons] at h <;>
      simp [FallbackIter.toList, FallbackIter.next, optStep, fuseNext,
        listStep, zipLonger, liveList] <;>
      exact ih _ _ (by simp [liveList]; omega)

/-- The pairing of two lists has the length of the longer list. -/
theorem zipLonger_length {β : Type v} (xs ys : List β) :
    (zipLonger xs ys).length = max xs.length ys.length := by
  induction xs, ys using zipLonger.induct <;>
    (simp_all [zipLonger]; try omega)

/-- Position `i` of the pairing holds the `i`-th elements of the two lists
(`none` on an exhausted side), and positions past the longer list are out
of range. -/
theorem zipLonger_getElem {β : Type v} (xs ys : List β) (i : Nat) :
    (zipLonger xs ys)[i]? =
      if i < max xs.length ys.length then
        some (Fallback.new xs[i]? ys[i]?)
      else none := by
  induction xs, ys using zipLonger.induct generalizing i with
  | case1 ys =>
    rcases h : ys[i]? with _ | y
    · have : ys.length ≤ i := List.getElem?_eq_none_iff.mp h
      simp [zipLonger, List.getElem?_map, h, Nat.not_lt.mpr this,
        Nat.not_lt.mpr (le_trans (Nat.zero_le _) this)]
    · have hlt : i < ys.length := by
        by_contra hc
        rw [List.getElem?_eq_none_iff.mpr (Nat.not_lt.mp hc)] at h
        exact Option.noConfusion h
      have hy : ys[i] = y := by
        rw [List.getElem?_eq_getElem hlt] at h
        exact Option.some.inj h
      simp [zipLonger, List.getElem?_map, h, hlt, hy]
  | case2 x xs ih =>
    cases i <;> simp_all [zipLonger]
  | case3 x xs y ys ih =>
    cases i <;> simp_all [zipLonger, Nat.succ_max_succ]

/-- The live list of an `intoIter` slot is the slot's list, or empty when
the slot is absent. -/
theorem liveList_intoIter_slot {β : Type v} (o : Option (List β)) :
    liveList (o.map (fun l => some l)) = o.getD [] := by
  cases o <;> rfl

/-- C4: iterating a pair of optional lists yields a sequence of length
`max` of the two lengths (an absent slot counting as empty); position `i`
pairs the `i`-th element of each side, `none` on an absent or exhausted
side; and the doc-test example `new(Some([3,2,1]), Some([1,1,4,5,1,4]))`,
resolved element-wise via `fallback()`, yields `[3,2,1,5,1,4]`. -/
theorem iteration_pairs {β : Type v} (fb : Fallback (List β)) (fuel i : Nat)
    (hfuel : max (fb.data.getD []).length (fb.base_data.getD []).length
      ≤ fuel) :
    (FallbackIter.toList (fuseNext listStep) fuel fb.intoIter).length
        = max (fb.data.getD []).length (fb.base_data.getD []).length
    ∧ (FallbackIter.toList (fuseNext listStep) fuel fb.intoIter)[i]? =
        (if i < max (fb.data.getD []).length (fb.base_data.getD []).length
         then some (Fallback.new (fb.data.getD [])[i]?
            (fb.base_data.getD [])[i]?)
         else none)
    ∧ (FallbackIter.toList (fuseNext listStep) 6
          (Fallback.new (some [3, 2, 1])
            (some [1, 1, 4, 5, 1, 4])).intoIter).filterMap
        Fallback.fallback = [3, 2, 1, 5, 1, 4] := by
  have key : FallbackIter.toList (fuseNext listStep) fuel fb.intoIter =
      zipLonger (fb.data.getD []) (fb.base_data.getD []) := by
    have h := toList_zipLonger fuel (fb.data.map (fun l => some l))
      (fb.base_data.map (fun l => some l))
    rw [liveList_intoIter_slot, liveList_intoIter_slot] at h
    exact h hfuel
  refine ⟨?_, ?_, ?_⟩
  · rw [key, zipLonger_length]
  · rw [key, zipLonger_getElem]
  · rfl

/-- Witness for C4 at concrete inputs. -/
theorem iteration_pairs_witness :
    (FallbackIter.toList (fuseNext listStep) 1
        (Fallback.new (some [10]) (none : Option (List Nat))).intoIter).length
      = 1
    ∧ (FallbackIter.toList (fuseNext listStep) 1
        (Fallback.new (some [10]) (none : Option (List Nat))).intoIter)[0]?
      = some (Fallback.new (some 10) none)
    ∧ (FallbackIter.toList (fuseNext listStep) 6
          (Fallback.new (some [3, 2, 1])
            (some [1, 1, 4, 5, 1, 4])).intoIter).filterMap
        Fallback.fallback = [3, 2, 1, 5, 1, 4] :=
  iteration_pairs (Fallback.new (some [10]) none) 1 0 (by decide)

/-- C5: the fieldwise derivation for the doc-example record `Foo` builds,
for each field, the pair of that field's values from the primary and
secondary records, an absent record contributing `none`; it is defined for
every occupancy combination of the outer pair. -/
theorem spec_fieldwise (fb : Fallback Foo) :
    FallbackFoo.data1 fb.spec =
      Fallback.new (fb.data.map Foo.data1) (fb.base_data.map Foo.data1)
    ∧ FallbackFoo.data2 fb.spec =
      Fallback.new (fb.data.map Foo.data2) (fb.base_data.map Foo.data2) := by
  obtain ⟨d, b⟩ := fb
  cases d <;> cases b <;> exact ⟨rfl, rfl⟩

/-- C6: `and_any` treats an empty container as absence before falling
back, and is exactly `and_then` with the empty-to-`None` function. -/
theorem and_any_empty_as_absent {α : Type u} (fb : Fallback (List α))
    (s : List α) (hs : s ≠ []) :
    fb.and_any = fb.and_then (fun l => if l.length = 0 then none else some l)
    ∧ (Fallback.new (some ([] : List α)) (some s)).and_any = some s
    ∧ (Fallback.new (some ([] : List α)) (some ([] : List α))).and_any
      = none := by
  refine ⟨rfl, ?_, rfl⟩
  simp [Fallback.and_any, Fallback.and_then, Fallback.new, Option.or,
    List.length_eq_zero, hs]

/-- Witness for C6 at concrete inputs. -/
theorem and_any_empty_as_absent_witness :
    (Fallback.new (some [5]) (none : Option (List Nat))).and_any =
      (Fallback.new (some [5]) (none : Option (List Nat))).and_then
        (fun l => if l.length = 0 then none else some l)
    ∧ (Fallback.new (some ([] : List Nat)) (some [7])).and_any = some [7]
    ∧ (Fallback.new (some ([] : List Nat)) (some ([] : List Nat))).and_any
      = none :=
  and_any_empty_as_absent (Fallback.new (some [5]) none) [7] (by decide)

/-- Once a fused iterator slot yields nothing, its successor state yields
nothing and is a fixed point of stepping, whatever the (possibly
restartable) inner iterator does. -/
theorem optStep_fused_dead {σ : Type u} {β : Type v}
    (step : σ → Option (β × σ)) (o : Option (Option σ))
    (h : (optStep (fuseNext step) o).1 = none) :
    optStep (fuseNext step) (optStep (fuseNext step) o).2 =
      (none, (optStep (fuseNext step) o).2) := by
  rcases o with _ | (_ | s)
  · rfl
  · rfl
  · rcases hs : step s with _ | ⟨a, s'⟩
    · simp [optStep, fuseNext, hs]
    · simp [optStep, fuseNext, hs] at h

/-- After `FallbackIter::next` over fused inner iterators returns `None`,
the resulting state is a fixed point: `next` on it returns `None` and the
same state again. -/
theorem next_none_fixed {σ : Type u} {β : Type v}
    (step : σ → Option (β × σ)) (it it' : FallbackIter (Option σ))
    (h : FallbackIter.next (fuseNext step) it = (none, it')) :
    FallbackIter.next (fuseNext step) it' = (none, it') := by
  simp only [FallbackIter.next] at h
  split at h
  · exact absurd (congrArg Prod.fst h) (by simp)
  · rename_i hcond
    rw [Bool.or_eq_true, not_or, Bool.not_eq_true, Bool.not_eq_true]
      at hcond
    obtain ⟨hc1', hc2'⟩ := hcond
    have hc1 : (optStep (fuseNext step) it.data).1 = none := by
      rcases hx : (optStep (fuseNext step) it.data).1 with _ | a
      · rfl
      · rw [hx] at hc1'; exact absurd hc1' (by simp)
    have hc2 : (optStep (fuseNext step) it.base_data).1 = none := by
      rcases hx : (optStep (fuseNext step) it.base_data).1 with _ | a
      · rfl
      · rw [hx] at hc2'; exact absurd hc2' (by simp)
    obtain rfl : it' =
        ⟨(optStep (fuseNext step) it.data).2,
         (optStep (fuseNext step) it.base_data).2⟩ :=
      (congrArg Prod.snd h).symm
    simp only [FallbackIter.next, optStep_fused_dead step it.data hc1,
      optStep_fused_dead step it.base_data hc2]
    rfl

/-- Iterating `next` from a `next`-fixed point stays at the fixed point
and keeps returning `None`. -/
theorem nextN_of_fixed {ι : Type u} {β : Type v} (inext : ι → Option β × ι)
    (it : FallbackIter ι) (h : FallbackIter.next inext it = (none, it))
    (k : Nat) : FallbackIter.nextN inext k it = (none, it) := by
  induction k with
  | zero => exact h
  | succ n ihn =>
    show FallbackIter.nextN inext n (FallbackIter.next inext it).2 = _
    rw [h]
    exact ihn

/-- C9: the iteration adapter is non-restartable — once `next` has
returned `None`, every subsequent `next` call returns `None`, for an
arbitrary (even non-fused, restartable) inner iterator, since the adapter
wraps it in `Fuse`; and on finite lists the produced sequence is finite,
of length `max` of the two lengths. -/
theorem iteration_not_restartable {σ : Type u} {β γ : Type v}
    (step : σ → Option (β × σ)) (it it' : FallbackIter (Option σ))
    (k : Nat) (xs ys : List γ)
    (h : FallbackIter.next (fuseNext step) it = (none, it')) :
    FallbackIter.next (fuseNext step) it' = (none, it')
    ∧ (FallbackIter.nextN (fuseNext step) k it').1 = none
    ∧ (FallbackIter.toList (fuseNext listStep) (max xs.length ys.length)
        (Fallback.new (some xs) (some ys)).intoIter).length
      = max xs.length ys.length := by
  have hfix := next_none_fixed step it it' h
  refine ⟨hfix, ?_, ?_⟩
  · rw [nextN_of_fixed (fuseNext step) it' hfix k]
  · show (FallbackIter.toList (fuseNext listStep) (max xs.length ys.length)
      ⟨some (some xs), some (some ys)⟩).length = max xs.length ys.length
    rw [toList_zipLonger (max xs.length ys.length)
      (some (some xs)) (some (some ys)) (le_refl _)]
    exact zipLonger_length xs ys

/-- Witness for C9 at concrete inputs: a primary slot over an
already-empty list, absent secondary slot. -/
theorem iteration_not_restartable_witness :
    FallbackIter.next (fuseNext listStep)
        (⟨some none, none⟩ : FallbackIter (Option (List Nat)))
      = (none, (⟨some none, none⟩ : FallbackIter (Option (List Nat))))
    ∧ (FallbackIter.nextN (fuseNext listStep) 2
        (⟨some none, none⟩ : FallbackIter (Option (List Nat)))).1 = none
    ∧ (FallbackIter.toList (fuseNext listStep) (max [1, 2].length [9].length)
        (Fallback.new (some [1, 2]) (some [9])).intoIter).length
      = max [1, 2].length [9].length :=
  iteration_not_restartable listStep ⟨some (some []), none⟩
    ⟨some none, none⟩ 2 [1, 2] [9] rfl

/-- C10: every element the iteration adapter yields has at least one slot
present — `is_some()` holds for every yielded pair, whatever the inner
iterators are. -/
theorem iteration_yield_is_some {ι : Type u} {β : Type v}
    (inext : ι → Option β × ι) (it it' : FallbackIter ι) (fb : Fallback β)
    (h : FallbackIter.next inext it = (some fb, it')) :
    fb.is_some = true := by
  simp only [FallbackIter.next] at h
  split at h
  · rename_i hcond
    obtain rfl : fb =
        Fallback.new (optStep inext it.data).1
          (optStep inext it.base_data).1 :=
      (Option.some.inj (congrArg Prod.fst h)).symm
    exact hcond
  · exact absurd (congrArg Prod.fst h) (by simp)

/-- Witness for C10 at concrete inputs. -/
theorem iteration_yield_is_some_witness :
    (Fallback.new (some 1) (none : Option Nat)).is_some = true :=
  iteration_yield_is_some (fuseNext listStep)
    ⟨some (some [1]), none⟩ ⟨some (some []), none⟩
    (Fallback.new (some 1) none) rfl
